import Mathlib

/-!
Verification of the 2-player Ludo MCTS agent (`ludo_mcts.py`).

The game model (`LudoState` and its operations) is a shallow embedding of the
source: positions are integers (`-1` = home, `0..39` = relative track,
`40..43` = finish lane), token lists are Lean lists, and the fallible
`apply_action` returns `Except`.  The search engine (`MCTS`) is embedded with
an explicit object heap for game states (Python objects mutated in place
become heap cells, `clone` becomes allocation of a fresh cell), an explicit
association-list transposition table, an injected random stream
`g : Nat -> Nat` (one draw per `random.randint` / `random.choice` call), and
explicit fuel for the unbounded `while True` loop of `_simulate` (`none` =
the simulation did not terminate within the fuel).
-/

/-- `TRACK_LEN = 40`. -/
abbrev TRACK_LEN : ℤ := 40

/-- `FINISH_LEN = 4`. -/
abbrev FINISH_LEN : ℤ := 4

/-- `BLUE_START = 0`. -/
abbrev BLUE_START : ℤ := 0

/-- `RED_START = TRACK_LEN // 2`. -/
abbrev RED_START : ℤ := TRACK_LEN / 2

/-- `HOME = -1`. -/
abbrev HOME : ℤ := -1

/-- The two players, `"Blue"` and `"Red"` in the source. -/
inductive Player where
  | Blue : Player
  | Red : Player
deriving DecidableEq, Repr

/-- `other_player`. -/
def other_player : Player → Player
  | Player.Blue => Player.Red
  | Player.Red => Player.Blue

/-- An action `(token_index, target_position)`. -/
abbrev LAction : Type := ℕ × ℤ

/-- The dataclass `LudoState`. -/
structure LudoState where
  blue_tokens : List ℤ
  red_tokens : List ℤ
  current_player : Player
deriving DecidableEq, Repr

/-- `LudoState._current_tokens`. -/
def LudoState.currentTokens (st : LudoState) : List ℤ :=
  if st.current_player = Player.Blue then st.blue_tokens else st.red_tokens

/-- `LudoState._opponent_tokens`. -/
def LudoState.opponentTokens (st : LudoState) : List ℤ :=
  if st.current_player = Player.Blue then st.red_tokens else st.blue_tokens

/-- `LudoState._all_finished`: all positions `>= TRACK_LEN + FINISH_LEN - 1`. -/
def allFinished (tokens : List ℤ) : Bool :=
  tokens.all fun pos => decide (TRACK_LEN + FINISH_LEN - 1 ≤ pos)

/-- `LudoState.is_terminal`. -/
def LudoState.is_terminal (st : LudoState) : Bool :=
  allFinished st.blue_tokens || allFinished st.red_tokens

/-- `LudoState.winner`. -/
def LudoState.winner (st : LudoState) : Option Player :=
  if allFinished st.blue_tokens then some Player.Blue
  else if allFinished st.red_tokens then some Player.Red
  else none

/-- `LudoState._track_to_global`: `(start + pos) % TRACK_LEN`. -/
def trackToGlobal (pos : ℤ) (player : Player) : ℤ :=
  (if player = Player.Blue then BLUE_START else RED_START) + pos |>.emod TRACK_LEN

/-- `LudoState._track_positions`: the global squares of the tokens that are on
the shared track (`0 <= pos < TRACK_LEN`). -/
def trackPositions (tokens : List ℤ) (player : Player) : List ℤ :=
  tokens.filterMap fun pos =>
    if 0 ≤ pos ∧ pos < TRACK_LEN then some (trackToGlobal pos player) else none

/-- The loop body of `LudoState.get_legal_actions`, walking the enumerated
token list; `own` is `own_track_positions` and `tokens` the full token list,
both computed once before the loop as in the source. -/
def legalAux (die : ℤ) (own : List ℤ) (tokens : List ℤ) : ℕ → List ℤ → List LAction
  | _, [] => []
  | idx, pos :: rest =>
    (if pos = HOME then
      (if die ≠ 6 then [] else if (0 : ℤ) ∈ own then [] else [((idx, 0) : LAction)])
    else if TRACK_LEN + FINISH_LEN ≤ pos then []
    else if TRACK_LEN + FINISH_LEN ≤ pos + die then []
    else if TRACK_LEN ≤ pos + die then
      (if pos + die ∈ tokens then [] else [((idx, pos + die) : LAction)])
    else if pos + die ∈ own then [] else [((idx, pos + die) : LAction)])
      ++ legalAux die own tokens (idx + 1) rest

/-- `LudoState.get_legal_actions`. -/
def LudoState.get_legal_actions (st : LudoState) (die : ℤ) : List LAction :=
  legalAux die (trackPositions st.currentTokens st.current_player) st.currentTokens
    0 st.currentTokens

/-- `LudoState._capture_opponent`: every opponent token on the shared track
whose global square equals `targetGlobal` is sent home. -/
def captureOpponent (st : LudoState) (targetGlobal : ℤ) : LudoState :=
  let f : ℤ → ℤ := fun pos =>
    if 0 ≤ pos ∧ pos < TRACK_LEN ∧
        trackToGlobal pos (other_player st.current_player) = targetGlobal
    then HOME else pos
  if st.current_player = Player.Blue then
    { st with red_tokens := st.red_tokens.map f }
  else
    { st with blue_tokens := st.blue_tokens.map f }

/-- Replace the mover's token list (the in-place write `tokens[i] = target`). -/
def LudoState.setCurrentTokens (st : LudoState) (tokens : List ℤ) : LudoState :=
  if st.current_player = Player.Blue then { st with blue_tokens := tokens }
  else { st with red_tokens := tokens }

/-- `LudoState.apply_action` as a value-level function.  The source mutates the
state in place; here the mutated state is returned.  The two `raise` points of
the source (the implicit `IndexError` of `tokens[token_index]` and the
explicit `ValueError`) come before any mutation in the source and are the
`Except.error` cases here. -/
def applyV (st : LudoState) (a : LAction) : Except String LudoState :=
  match st.currentTokens[a.1]? with
  | none => Except.error "IndexError: list index out of range"
  | some pos =>
    if pos = HOME ∧ a.2 ≠ 0 then
      Except.error "Illegal action: token in home must enter at position 0."
    else
      let st1 :=
        if a.2 < TRACK_LEN then
          if trackToGlobal a.2 st.current_player ∈
              trackPositions st.opponentTokens (other_player st.current_player) then
            captureOpponent st (trackToGlobal a.2 st.current_player)
          else st
        else st
      let st2 := st1.setCurrentTokens (st1.currentTokens.set a.1 a.2)
      Except.ok { st2 with current_player := other_player st.current_player }

instance {ε α : Type} [DecidableEq ε] [DecidableEq α] : DecidableEq (Except ε α) := fun x y =>
  match x, y with
  | Except.error e, Except.error f =>
    if h : e = f then isTrue (by rw [h]) else isFalse (by intro hh; cases hh; exact h rfl)
  | Except.error _, Except.ok _ => isFalse (by intro h; cases h)
  | Except.ok _, Except.error _ => isFalse (by intro h; cases h)
  | Except.ok a, Except.ok b =>
    if h : a = b then isTrue (by rw [h]) else isFalse (by intro hh; cases hh; exact h rfl)

/-- `LudoState.key`: the canonical state key `(turn, blue, red)`. -/
def LudoState.key (st : LudoState) : Player × List ℤ × List ℤ :=
  (st.current_player, st.blue_tokens, st.red_tokens)

/-- The token list of a given player (spec-side accessor for stating
theorems about a fixed player). -/
def LudoState.tokensOf (st : LudoState) : Player → List ℤ
  | Player.Blue => st.blue_tokens
  | Player.Red => st.red_tokens

/-- The data-model invariant from the spec: four tokens per player, every
position in `[-1, TRACK_LEN + FINISH_LEN - 1]`. -/
def WellFormed (st : LudoState) : Prop :=
  st.blue_tokens.length = 4 ∧ st.red_tokens.length = 4 ∧
    (∀ p ∈ st.blue_tokens, HOME ≤ p ∧ p ≤ TRACK_LEN + FINISH_LEN - 1) ∧
    (∀ p ∈ st.red_tokens, HOME ≤ p ∧ p ≤ TRACK_LEN + FINISH_LEN - 1)

instance (st : LudoState) : Decidable (WellFormed st) := by
  unfold WellFormed; infer_instance

theorem TRACK_LEN_eq : TRACK_LEN = 40 := rfl

theorem FINISH_LEN_eq : FINISH_LEN = 4 := rfl

theorem HOME_eq : HOME = -1 := rfl

theorem RED_START_eq : RED_START = 20 := rfl

theorem BLUE_START_eq : BLUE_START = 0 := rfl

/-- The per-token condition under which `get_legal_actions` emits an action
with target `t` for a token at `pos` (read off the branch structure of the
loop body). -/
def TokenRule (die : ℤ) (own tokens : List ℤ) (pos t : ℤ) : Prop :=
  (pos = HOME ∧ die = 6 ∧ (0 : ℤ) ∉ own ∧ t = 0) ∨
    (pos ≠ HOME ∧ pos < TRACK_LEN + FINISH_LEN ∧ t = pos + die ∧
      t < TRACK_LEN + FINISH_LEN ∧
      ((TRACK_LEN ≤ t ∧ t ∉ tokens) ∨ (t < TRACK_LEN ∧ t ∉ own)))

theorem legalAux_mem {die : ℤ} {own tokens : List ℤ} :
    ∀ (l : List ℤ) (idx : ℕ) (a : LAction), a ∈ legalAux die own tokens idx l →
      ∃ (j : ℕ) (pos : ℤ), l[j]? = some pos ∧ a.1 = idx + j ∧
        TokenRule die own tokens pos a.2 := by
  intro l
  induction l with
  | nil => intro idx a ha; simp [legalAux] at ha
  | cons pos rest ih =>
    intro idx a ha
    rw [legalAux] at ha
    rcases List.mem_append.mp ha with h | h
    · have hhead : ∃ t : ℤ, a = (idx, t) ∧ TokenRule die own tokens pos t := by
        by_cases h1 : pos = HOME
        · by_cases h2 : die ≠ 6
          · simp [h1, h2] at h
          · by_cases h3 : (0 : ℤ) ∈ own
            · simp [h1, h2, h3] at h
            · simp [h1, h2, h3] at h
              exact ⟨0, h, Or.inl ⟨h1, not_not.mp h2, h3, rfl⟩⟩
        · by_cases h4 : TRACK_LEN + FINISH_LEN ≤ pos
          · simp [h1, h4] at h
          · by_cases h5 : TRACK_LEN + FINISH_LEN ≤ pos + die
            · simp [h1, h4, h5] at h
            · by_cases h6 : TRACK_LEN ≤ pos + die
              · by_cases h7 : pos + die ∈ tokens
                · simp [h1, h4, h5, h6, h7] at h
                · simp [h1, h4, h5, h6, h7] at h
                  exact ⟨pos + die, h,
                    Or.inr ⟨h1, by omega, rfl, by omega, Or.inl ⟨h6, h7⟩⟩⟩
              · by_cases h8 : pos + die ∈ own
                · simp [h1, h4, h5, h6, h8] at h
                · simp [h1, h4, h5, h6, h8] at h
                  exact ⟨pos + die, h,
                    Or.inr ⟨h1, by omega, rfl, by omega, Or.inr ⟨by omega, h8⟩⟩⟩
      obtain ⟨t, rfl, hrule⟩ := hhead
      exact ⟨0, pos, by simp, rfl, hrule⟩
    · obtain ⟨j, p, hj, hidx, hr⟩ := ih (idx + 1) a h
      exact ⟨j + 1, p, by simpa using hj, by omega, hr⟩

theorem legal_mem {st : LudoState} {die : ℤ} {a : LAction}
    (ha : a ∈ st.get_legal_actions die) :
    ∃ pos : ℤ, st.currentTokens[a.1]? = some pos ∧
      TokenRule die (trackPositions st.currentTokens st.current_player)
        st.currentTokens pos a.2 := by
  obtain ⟨j, pos, hj, hidx, hr⟩ := legalAux_mem _ 0 a ha
  exact ⟨pos, by rw [hidx]; simpa using hj, hr⟩

/-- C7: for any state and die in `1..6`, no legal action moves a token that
already sits at the terminal finish value `TRACK_LEN + FINISH_LEN - 1 = 43`,
and no legal action has a target `>= TRACK_LEN + FINISH_LEN = 44`. -/
theorem legal_no_finished_move_no_overshoot (st : LudoState) (die : ℤ)
    (hlo : 1 ≤ die) (hhi : die ≤ 6) :
    ∀ a ∈ st.get_legal_actions die,
      a.2 < TRACK_LEN + FINISH_LEN ∧
        st.currentTokens[a.1]? ≠ some (TRACK_LEN + FINISH_LEN - 1) := by
  intro a ha
  obtain ⟨pos, hget, hrule⟩ := legal_mem ha
  have hpos : pos ≠ TRACK_LEN + FINISH_LEN - 1 ∧ a.2 < TRACK_LEN + FINISH_LEN := by
    rcases hrule with ⟨h1, h2, h3, h4⟩ | ⟨h1, h2, h3, h4, h5⟩ <;>
      simp only [TRACK_LEN_eq, FINISH_LEN_eq, HOME_eq] at h1 h2 h3 h4 ⊢ <;> omega
  refine ⟨hpos.2, ?_⟩
  rw [hget]
  simpa using hpos.1

theorem legal_no_finished_move_no_overshoot_witness :
    (1 : ℤ) ≤ 6 ∧ (6 : ℤ) ≤ 6 ∧
      ∀ a ∈ LudoState.get_legal_actions
          ⟨[0, -1, -1, -1], [-1, -1, -1, -1], Player.Blue⟩ 6,
        a.2 < TRACK_LEN + FINISH_LEN ∧
          (LudoState.currentTokens
              ⟨[0, -1, -1, -1], [-1, -1, -1, -1], Player.Blue⟩)[a.1]? ≠
            some (TRACK_LEN + FINISH_LEN - 1) :=
  ⟨by norm_num, by norm_num,
    legal_no_finished_move_no_overshoot _ 6 (by norm_num) (by norm_num)⟩

/-- C1 fails on the code: with Red to move, `red = [3, 5, -1, -1]` and die 2,
the action `(0, 5)` is offered (the self-stacking check compares the relative
target against global squares, which only coincide for Blue) and applying it
leaves two of Red's tokens on relative position 5. -/
theorem red_self_stacking_failure :
    WellFormed ⟨[-1, -1, -1, -1], [3, 5, -1, -1], Player.Red⟩ ∧
      ((0, 5) : LAction) ∈
        LudoState.get_legal_actions ⟨[-1, -1, -1, -1], [3, 5, -1, -1], Player.Red⟩ 2 ∧
      applyV ⟨[-1, -1, -1, -1], [3, 5, -1, -1], Player.Red⟩ (0, 5) =
        Except.ok ⟨[-1, -1, -1, -1], [5, 5, -1, -1], Player.Blue⟩ := by decide

/-- C2 fails on the code: with Red to move and a Red token already on relative
position 0, the home-entry action `(1, 0)` is still offered on a 6 (the entry
check tests the relative entry square 0 against Red's global squares). -/
theorem red_entry_not_blocked_failure :
    WellFormed ⟨[-1, -1, -1, -1], [0, -1, -1, -1], Player.Red⟩ ∧
      (0 : ℤ) ∈ (⟨[-1, -1, -1, -1], [0, -1, -1, -1],
          Player.Red⟩ : LudoState).currentTokens ∧
      ((1, 0) : LAction) ∈
        LudoState.get_legal_actions
          ⟨[-1, -1, -1, -1], [0, -1, -1, -1], Player.Red⟩ 6 := by decide

theorem allFinished_iff_all_terminal {tokens : List ℤ}
    (hb : ∀ p ∈ tokens, p ≤ TRACK_LEN + FINISH_LEN - 1) :
    allFinished tokens = true ↔ ∀ p ∈ tokens, p = TRACK_LEN + FINISH_LEN - 1 := by
  rw [allFinished, List.all_eq_true]
  constructor
  · intro h p hp
    have h1 := h p hp
    have h2 := hb p hp
    simp only [decide_eq_true_iff] at h1
    omega
  · intro h p hp
    have h3 := h p hp
    simp only [decide_eq_true_iff]
    omega

/-- C6 fails on the code at a doubly-finished state: with all eight tokens at
43, `winner` reports Blue, so Red has all four tokens at the terminal value
yet is not reported as the winner. -/
theorem winner_double_finish_failure :
    WellFormed ⟨[43, 43, 43, 43], [43, 43, 43, 43], Player.Blue⟩ ∧
      (∀ p ∈ (⟨[43, 43, 43, 43], [43, 43, 43, 43],
          Player.Blue⟩ : LudoState).red_tokens, p = TRACK_LEN + FINISH_LEN - 1) ∧
      (⟨[43, 43, 43, 43], [43, 43, 43, 43],
          Player.Blue⟩ : LudoState).winner ≠ some Player.Red := by decide

/-- C6 amended: on well-formed states, Blue is reported as the winner iff all
of Blue's tokens equal 43; Red is reported iff all of Red's tokens equal 43
and Blue has not also finished (on simultaneous completion Blue is reported);
the state is terminal iff some player has all tokens at 43; and a player with
some token below 43 (in particular exactly three tokens at 43) is never
reported as the winner. -/
theorem winner_terminal_characterization (st : LudoState) (hwf : WellFormed st) :
    (st.winner = some Player.Blue ↔
        ∀ p ∈ st.blue_tokens, p = TRACK_LEN + FINISH_LEN - 1) ∧
      (st.winner = some Player.Red ↔
        ((∀ p ∈ st.red_tokens, p = TRACK_LEN + FINISH_LEN - 1) ∧
          ¬∀ p ∈ st.blue_tokens, p = TRACK_LEN + FINISH_LEN - 1)) ∧
      (st.is_terminal = true ↔
        ((∀ p ∈ st.blue_tokens, p = TRACK_LEN + FINISH_LEN - 1) ∨
          ∀ p ∈ st.red_tokens, p = TRACK_LEN + FINISH_LEN - 1)) ∧
      (∀ pl, (∃ p ∈ st.tokensOf pl, p ≠ TRACK_LEN + FINISH_LEN - 1) →
        st.winner ≠ some pl) := by
  obtain ⟨hlb, hlr, hb, hr⟩ := hwf
  have hbi := allFinished_iff_all_terminal
    (fun p (hp : p ∈ st.blue_tokens) => (hb p hp).2)
  have hri := allFinished_iff_all_terminal
    (fun p (hp : p ∈ st.red_tokens) => (hr p hp).2)
  have c1 : st.winner = some Player.Blue ↔
      ∀ p ∈ st.blue_tokens, p = TRACK_LEN + FINISH_LEN - 1 := by
    unfold LudoState.winner
    cases hBc : allFinished st.blue_tokens <;>
      cases hRc : allFinished st.red_tokens <;> simp_all <;> tauto
  have c2 : st.winner = some Player.Red ↔
      ((∀ p ∈ st.red_tokens, p = TRACK_LEN + FINISH_LEN - 1) ∧
        ¬∀ p ∈ st.blue_tokens, p = TRACK_LEN + FINISH_LEN - 1) := by
    unfold LudoState.winner
    cases hBc : allFinished st.blue_tokens <;>
      cases hRc : allFinished st.red_tokens <;> simp_all <;> tauto
  have c3 : st.is_terminal = true ↔
      ((∀ p ∈ st.blue_tokens, p = TRACK_LEN + FINISH_LEN - 1) ∨
        ∀ p ∈ st.red_tokens, p = TRACK_LEN + FINISH_LEN - 1) := by
    unfold LudoState.is_terminal
    rw [Bool.or_eq_true, hbi, hri]
  refine ⟨c1, c2, c3, ?_⟩
  rintro pl ⟨p, hp, hpe⟩ hwin
  cases pl with
  | Blue => exact hpe (c1.mp hwin p hp)
  | Red => exact hpe ((c2.mp hwin).1 p hp)

theorem winner_terminal_characterization_witness :
    WellFormed ⟨[43, 43, 43, 0], [-1, -1, -1, -1], Player.Blue⟩ ∧
      (⟨[43, 43, 43, 0], [-1, -1, -1, -1],
          Player.Blue⟩ : LudoState).winner ≠ some Player.Blue :=
  ⟨by decide,
    (winner_terminal_characterization _ (by decide)).2.2.2 Player.Blue
      ⟨0, by decide, by decide⟩⟩


/-- The object heap: Python `LudoState` objects, mutated in place, become
heap cells addressed by allocation index. -/
abbrev Heap : Type := List LudoState

abbrev ObjId : Type := ℕ

def defaultState : LudoState := ⟨[], [], Player.Blue⟩

/-- Read the state object at an id. -/
def readH (heap : Heap) (s : ObjId) : LudoState := heap.getD s defaultState

/-- Overwrite the state object at an id (an in-place mutation in Python). -/
def writeH (heap : Heap) (s : ObjId) (v : LudoState) : Heap := heap.set s v

/-- `LudoState.clone`: allocate a fresh object holding a copy of the value
(`blue_tokens.copy()`, `red_tokens.copy()`, same `current_player`). -/
def allocH (heap : Heap) (v : LudoState) : Heap × ObjId := (heap ++ [v], heap.length)

/-- `LudoState.apply_action` acting on a heap object.  The `raise` points of
the source come before any mutation, so on error the heap is returned as it
was at the raise. -/
def applyA (heap : Heap) (s : ObjId) (a : LAction) : Option String × Heap :=
  match applyV (readH heap s) a with
  | Except.error e => (some e, heap)
  | Except.ok st2 => (none, writeH heap s st2)

/-- C9: when `apply_action` raises its invalid-action error (acting token at
home, target not 0), the state object is completely unchanged: no token of
either player moves, no capture happens, and the turn does not pass. -/
theorem apply_action_error_atomic (heap : Heap) (s : ObjId) (idx : ℕ) (t : ℤ)
    (hpos : (readH heap s).currentTokens[idx]? = some HOME) (ht : t ≠ 0) :
    applyA heap s (idx, t) =
      (some "Illegal action: token in home must enter at position 0.", heap) := by
  unfold applyA applyV
  simp only [hpos]
  split_ifs <;>
    first
      | rfl
      | exact absurd (And.intro trivial ht) (by assumption)

theorem apply_action_error_atomic_witness :
    (readH [⟨[0, -1, -1, -1], [-1, -1, -1, -1], Player.Blue⟩] 0).currentTokens[1]? =
        some HOME ∧
      applyA [⟨[0, -1, -1, -1], [-1, -1, -1, -1], Player.Blue⟩] 0 (1, 5) =
        (some "Illegal action: token in home must enter at position 0.",
          [⟨[0, -1, -1, -1], [-1, -1, -1, -1], Player.Blue⟩]) :=
  ⟨by decide,
    apply_action_error_atomic [⟨[0, -1, -1, -1], [-1, -1, -1, -1], Player.Blue⟩]
      0 1 5 (by decide) (by decide)⟩

theorem capture_map_id {opp : List ℤ} {oppPl : Player} {tg : ℤ}
    (h : tg ∉ trackPositions opp oppPl) :
    (opp.map fun q =>
      if 0 ≤ q ∧ q < TRACK_LEN ∧ trackToGlobal q oppPl = tg then HOME else q) = opp := by
  induction opp with
  | nil => rfl
  | cons q rest ih =>
    rw [trackPositions, List.filterMap_cons] at h
    simp only [List.map_cons]
    by_cases hq : 0 ≤ q ∧ q < TRACK_LEN
    · rw [if_pos hq] at h
      simp only [List.mem_cons, not_or] at h
      rw [if_neg (by tauto), ih (by rw [trackPositions]; exact h.2)]
    · rw [if_neg hq] at h
      rw [if_neg (by tauto), ih (by rw [trackPositions]; exact h)]

theorem opponentTokens_eq_tokensOf (st : LudoState) :
    st.opponentTokens = st.tokensOf (other_player st.current_player) := by
  cases hcp : st.current_player <;>
    simp [LudoState.opponentTokens, LudoState.tokensOf, other_player, hcp]

theorem tokensOf_player_update (st : LudoState) (p pl : Player) :
    ({ st with current_player := p } : LudoState).tokensOf pl = st.tokensOf pl := by
  cases pl <;> rfl

theorem tokensOf_setCurrent_opp (st : LudoState) (tokens : List ℤ) :
    (st.setCurrentTokens tokens).tokensOf (other_player st.current_player) =
      st.tokensOf (other_player st.current_player) := by
  cases hcp : st.current_player <;>
    simp [LudoState.setCurrentTokens, LudoState.tokensOf, other_player, hcp]

theorem captureOpponent_tokensOf_opp (st : LudoState) (tg : ℤ) :
    (captureOpponent st tg).tokensOf (other_player st.current_player) =
      (st.tokensOf (other_player st.current_player)).map fun q =>
        if 0 ≤ q ∧ q < TRACK_LEN ∧
            trackToGlobal q (other_player st.current_player) = tg
        then HOME else q := by
  cases hcp : st.current_player <;>
    simp [captureOpponent, LudoState.tokensOf, other_player, hcp]

theorem captureOpponent_player (st : LudoState) (tg : ℤ) :
    (captureOpponent st tg).current_player = st.current_player := by
  cases hcp : st.current_player <;> simp [captureOpponent, hcp]

theorem applyV_ok_eq {st : LudoState} {idx : ℕ} {t pos : ℤ}
    (hpos : st.currentTokens[idx]? = some pos)
    (hok : ¬(pos = HOME ∧ t ≠ 0)) :
    applyV st (idx, t) = Except.ok
      { (if t < TRACK_LEN then
          if trackToGlobal t st.current_player ∈
              trackPositions st.opponentTokens (other_player st.current_player) then
            captureOpponent st (trackToGlobal t st.current_player)
          else st
        else st).setCurrentTokens
          ((if t < TRACK_LEN then
            if trackToGlobal t st.current_player ∈
                trackPositions st.opponentTokens (other_player st.current_player) then
              captureOpponent st (trackToGlobal t st.current_player)
            else st
          else st).currentTokens.set idx t) with
        current_player := other_player st.current_player } := by
  unfold applyV
  simp only [hpos]
  rw [if_neg hok]

/-- C4 counterexample to the claim's first scenario: from
`blue = [5,-1,-1,-1]`, `red = [0,-1,-1,-1]`, applying the Blue action
`(0, 20)` lands on absolute square `(0+20) % 40 = 20`, which IS Red's
absolute square (`(20+0) % 40 = 20`), so Red's token is captured — the
claim says this move must NOT capture. -/
theorem capture_scenario_a_failure :
    applyV ⟨[5, -1, -1, -1], [0, -1, -1, -1], Player.Blue⟩ (0, 20) =
      Except.ok ⟨[20, -1, -1, -1], [-1, -1, -1, -1], Player.Red⟩ := by decide

/-- C4 amended: for any successfully applied action with a track target
(`target < 40`), the target is translated to the absolute square
`(player_offset + target) % 40` and exactly the opponent tokens on the shared
track whose own absolute square equals it are sent home (all others are
unchanged); a finish-lane target (`target >= 40`) captures nothing.  Of the
two concrete scenarios, the no-capture one must use target 25 (absolute
square 25, vs Red at absolute 20) — target 20 as in the claim does capture —
and the capture scenario from `blue=[15,...]` with action `(0,20)` holds as
claimed. -/
theorem apply_action_capture_spec :
    (∀ (st : LudoState) (idx : ℕ) (t pos : ℤ),
      st.currentTokens[idx]? = some pos →
      ¬(pos = HOME ∧ t ≠ 0) →
      ∀ st2, applyV st (idx, t) = Except.ok st2 →
        (t < TRACK_LEN →
          st2.tokensOf (other_player st.current_player) =
            (st.tokensOf (other_player st.current_player)).map fun q =>
              if 0 ≤ q ∧ q < TRACK_LEN ∧
                  trackToGlobal q (other_player st.current_player) =
                    trackToGlobal t st.current_player
              then HOME else q) ∧
        (TRACK_LEN ≤ t →
          st2.tokensOf (other_player st.current_player) =
            st.tokensOf (other_player st.current_player))) ∧
    applyV ⟨[5, -1, -1, -1], [0, -1, -1, -1], Player.Blue⟩ (0, 25) =
      Except.ok ⟨[25, -1, -1, -1], [0, -1, -1, -1], Player.Red⟩ ∧
    applyV ⟨[15, -1, -1, -1], [0, -1, -1, -1], Player.Blue⟩ (0, 20) =
      Except.ok ⟨[20, -1, -1, -1], [-1, -1, -1, -1], Player.Red⟩ := by
  refine ⟨?_, by decide, by decide⟩
  intro st idx t pos hpos hok st2 happ
  rw [applyV_ok_eq hpos hok] at happ
  injection happ with happ
  subst happ
  constructor
  · intro ht
    rw [if_pos ht]
    by_cases hmem : trackToGlobal t st.current_player ∈
        trackPositions st.opponentTokens (other_player st.current_player)
    · rw [if_pos hmem, tokensOf_player_update]
      have hp := captureOpponent_player st (trackToGlobal t st.current_player)
      rw [show other_player st.current_player =
          other_player (captureOpponent st
            (trackToGlobal t st.current_player)).current_player from by rw [hp]]
      rw [tokensOf_setCurrent_opp]
      rw [show other_player (captureOpponent st
            (trackToGlobal t st.current_player)).current_player =
          other_player st.current_player from by rw [hp]]
      exact captureOpponent_tokensOf_opp st (trackToGlobal t st.current_player)
    · rw [if_neg hmem, tokensOf_player_update, tokensOf_setCurrent_opp]
      rw [opponentTokens_eq_tokensOf] at hmem
      exact (capture_map_id hmem).symm
  · intro ht
    rw [if_neg (by omega : ¬ t < TRACK_LEN), tokensOf_player_update,
      tokensOf_setCurrent_opp]

theorem apply_action_capture_spec_witness :
    ((⟨[15, -1, -1, -1], [0, -1, -1, -1], Player.Blue⟩ :
        LudoState).currentTokens[0]? = some 15) ∧
      ¬((15 : ℤ) = HOME ∧ (20 : ℤ) ≠ 0) ∧
      applyV ⟨[15, -1, -1, -1], [0, -1, -1, -1], Player.Blue⟩ (0, 20) =
        Except.ok ⟨[20, -1, -1, -1], [-1, -1, -1, -1], Player.Red⟩ ∧
      ((20 : ℤ) < TRACK_LEN →
        (⟨[20, -1, -1, -1], [-1, -1, -1, -1], Player.Red⟩ :
            LudoState).tokensOf (other_player Player.Blue) =
          ((⟨[15, -1, -1, -1], [0, -1, -1, -1], Player.Blue⟩ :
              LudoState).tokensOf (other_player Player.Blue)).map fun q =>
            if 0 ≤ q ∧ q < TRACK_LEN ∧
                trackToGlobal q (other_player Player.Blue) =
                  trackToGlobal 20 Player.Blue
            then HOME else q) :=
  ⟨by decide, by decide, by decide,
    (apply_action_capture_spec.1 ⟨[15, -1, -1, -1], [0, -1, -1, -1], Player.Blue⟩
      0 20 15 (by decide) (by decide) _ (by decide)).1⟩

/-- Canonical state key, as in `MCTSNode.state_key` / the `nodes` dict. -/
abbrev StateKey : Type := Player × List ℤ × List ℤ

/-- Association-list lookup with Python-dict semantics (`d.get(k)`). -/
def lookupD {κ α : Type} [DecidableEq κ] : List (κ × α) → κ → Option α
  | [], _ => none
  | (k, v) :: rest, key => if k = key then some v else lookupD rest key

/-- Association-list write with Python-dict semantics (`d[k] = v`: update in
place if present, else append, preserving insertion order). -/
def insertD {κ α : Type} [DecidableEq κ] : List (κ × α) → κ → α → List (κ × α)
  | [], key, v => [(key, v)]
  | (k, w) :: rest, key, v =>
    if k = key then (k, v) :: rest else (k, w) :: insertD rest key v

/-- `MCTSNode`: per-action visit counts `N`, accumulated values `W` (the
source uses floats but only ever adds the integer outcomes 1, -1, 0), the
child-key map and the total visit counter. -/
structure MCTSNode where
  state_key : StateKey
  children : List (LAction × StateKey)
  N : List (LAction × ℕ)
  W : List (LAction × ℤ)
  total_visits : ℕ
deriving DecidableEq, Repr

/-- `MCTSNode.__init__`. -/
def MCTSNode.new (k : StateKey) : MCTSNode := ⟨k, [], [], [], 0⟩

abbrev Nodes : Type := List (StateKey × MCTSNode)

abbrev SPath : Type := List (StateKey × LAction × Player)

/-- `MCTSNode.q_value`. -/
noncomputable def q_value (node : MCTSNode) (a : LAction) : ℝ :=
  if (lookupD node.N a).getD 0 = 0 then 0
  else ((lookupD node.W a).getD 0 : ℝ) / ((lookupD node.N a).getD 0 : ℝ)

/-- `MCTSNode.uct_score`; the float `inf` of the source is the top element of
`EReal`. -/
noncomputable def uct_score (node : MCTSNode) (a : LAction) (cpuct : ℝ)
    (player : Player) : EReal :=
  if (lookupD node.N a).getD 0 = 0 then (⊤ : EReal)
  else (((if player = Player.Blue then (1 : ℝ) else -1) * q_value node a +
      cpuct * Real.sqrt (Real.log ((node.total_visits : ℝ) + 1) /
        ((lookupD node.N a).getD 0 : ℝ)) : ℝ) : EReal)

/-- Python `max(xs, key=f)`: the first element with maximal key (a later
element replaces the running best only when strictly greater). -/
noncomputable def pyMaxBy (l : List LAction) (f : LAction → EReal) : LAction :=
  match l with
  | [] => (0, 0)
  | x :: xs => xs.foldl (fun best it => if f best < f it then it else best) x

/-- `max(root_node.N.items(), key=lambda item: item[1])[0]`. -/
def pyMaxCount (l : List (LAction × ℕ)) : LAction :=
  match l with
  | [] => (0, 0)
  | x :: xs => (xs.foldl (fun best it => if best.2 < it.2 then it else best) x).1

/-- `MCTS._value_to_winner`. -/
def valueToWinner (v : ℤ) : Option Player :=
  if 0 < v then some Player.Blue else if v < 0 then some Player.Red else none

/-- One step of `MCTS._backpropagate`: the in-place node mutations become a
table update at the node's key (every node on the path lives in the table). -/
def bpStep (outcome : ℤ) (nodes : Nodes) (e : StateKey × LAction × Player) : Nodes :=
  match lookupD nodes e.1 with
  | none => nodes
  | some nd =>
    insertD nodes e.1
      { nd with
        total_visits := nd.total_visits + 1,
        N := insertD nd.N e.2.1 ((lookupD nd.N e.2.1).getD 0 + 1),
        W := insertD nd.W e.2.1 ((lookupD nd.W e.2.1).getD 0 + outcome) }

/-- `MCTS._backpropagate`, returning the updated table and the outcome. -/
def backpropagate (path : SPath) (winner : Option Player) (nodes : Nodes) :
    Nodes × ℤ :=
  let outcome : ℤ := match winner with
    | some Player.Blue => 1
    | some Player.Red => -1
    | none => 0
  (path.foldl (bpStep outcome) nodes, outcome)

/-- `MCTS._rollout` with explicit depth (the source default is 200), random
stream and stream index; returns the value, the final state of the mutated
state object and the next stream index.  `random.randint(1, 6)` is one draw,
`random.choice` one draw. -/
def rollout (g : ℕ → ℕ) : ℕ → LudoState → ℕ → Except String (ℤ × LudoState × ℕ)
  | 0, st, i => Except.ok (0, st, i)
  | d + 1, st, i =>
    if st.is_terminal then
      Except.ok
        (match st.winner with
          | some Player.Blue => 1
          | some Player.Red => -1
          | none => 0, st, i)
    else
      let die : ℤ := ((g i % 6 : ℕ) : ℤ) + 1
      let legal := st.get_legal_actions die
      if legal = [] then
        rollout g d { st with current_player := other_player st.current_player } (i + 1)
      else
        match applyV st (legal.getD (g (i + 1) % legal.length) (0, 0)) with
        | Except.error e => Except.error e
        | Except.ok st2 => rollout g d st2 (i + 2)

/-- `MCTS._simulate`, one `while True` iteration per unit of fuel (`none` =
the loop did not finish within the fuel).  `Except.error` propagates an
uncaught `apply_action` exception.  The state object `s` is mutated in place
(pass-turn and the selection branch), and the expansion branch clones it. -/
noncomputable def simulateH (g : ℕ → ℕ) (cpuct : ℝ) :
    ℕ → Heap → Nodes → ℕ → ObjId → SPath →
    Option (Except String (Heap × Nodes × ℕ × ℤ))
  | 0, _, _, _, _, _ => none
  | fuel + 1, heap, nodes, i, s, path =>
    if (readH heap s).is_terminal then
      let bp := backpropagate path (readH heap s).winner nodes
      some (Except.ok (heap, bp.1, i, bp.2))
    else
      match lookupD nodes (readH heap s).key with
      | none =>
        let nodes1 := insertD nodes (readH heap s).key (MCTSNode.new (readH heap s).key)
        match rollout g 200 (readH heap s) i with
        | Except.error e => some (Except.error e)
        | Except.ok (v, st2, i2) =>
          let bp := backpropagate path (valueToWinner v) nodes1
          some (Except.ok (writeH heap s st2, bp.1, i2, bp.2))
      | some node =>
        let die : ℤ := ((g i % 6 : ℕ) : ℤ) + 1
        let legal := (readH heap s).get_legal_actions die
        if legal = [] then
          simulateH g cpuct fuel
            (writeH heap s
              { readH heap s with
                current_player := other_player (readH heap s).current_player })
            nodes (i + 1) s path
        else
          let untried := legal.filter fun a => (lookupD node.children a).isNone
          if untried = [] then
            let a := pyMaxBy legal fun act =>
              uct_score node act cpuct (readH heap s).current_player
            let path2 := path ++ [((readH heap s).key, a, (readH heap s).current_player)]
            match applyA heap s a with
            | (some e, _) => some (Except.error e)
            | (none, heap2) => simulateH g cpuct fuel heap2 nodes (i + 1) s path2
          else
            let a := untried.getD (g (i + 1) % untried.length) (0, 0)
            let cl := allocH heap (readH heap s)
            match applyA cl.1 cl.2 a with
            | (some e, _) => some (Except.error e)
            | (none, heap2) =>
              let nodes1 := insertD nodes (readH heap s).key
                { node with children := insertD node.children a (readH heap2 cl.2).key }
              let path2 := path ++ [((readH heap s).key, a, (readH heap s).current_player)]
              match rollout g 200 (readH heap2 cl.2) (i + 2) with
              | Except.error e => some (Except.error e)
              | Except.ok (v, st2, i2) =>
                let bp := backpropagate path2 (valueToWinner v) nodes1
                some (Except.ok (writeH heap2 cl.2 st2, bp.1, i2, bp.2))

/-- The `for _ in range(self.n_simulations)` loop of `MCTS.search`: each
iteration clones the root object and simulates from the clone. -/
noncomputable def searchLoop (g : ℕ → ℕ) (cpuct : ℝ) (fuel : ℕ) (root : ObjId) :
    ℕ → Heap → Nodes → ℕ → Option (Except String (Heap × Nodes × ℕ))
  | 0, heap, nodes, i => some (Except.ok (heap, nodes, i))
  | n + 1, heap, nodes, i =>
    let cl := allocH heap (readH heap root)
    match simulateH g cpuct fuel cl.1 nodes i cl.2 [] with
    | none => none
    | some (Except.error e) => some (Except.error e)
    | some (Except.ok (h2, n2, i2, _)) => searchLoop g cpuct fuel root n h2 n2 i2

/-- `MCTS.search`. -/
noncomputable def searchH (g : ℕ → ℕ) (cpuct : ℝ) (fuel : ℕ) (heap : Heap)
    (nodes : Nodes) (i : ℕ) (root : ObjId) (nsim : ℕ) :
    Option (Except String (Heap × Nodes × ℕ × Option LAction)) :=
  let rootKey := (readH heap root).key
  let nodes1 :=
    if (lookupD nodes rootKey).isNone then insertD nodes rootKey (MCTSNode.new rootKey)
    else nodes
  match searchLoop g cpuct fuel root nsim heap nodes1 i with
  | none => none
  | some (Except.error e) => some (Except.error e)
  | some (Except.ok (h2, n2, i2)) =>
    match lookupD n2 rootKey with
    | none => some (Except.ok (h2, n2, i2, none))
    | some nd =>
      if nd.N = [] then some (Except.ok (h2, n2, i2, none))
      else some (Except.ok (h2, n2, i2, some (pyMaxCount nd.N)))

/-- The action component of a `searchH` run (`some r` iff the run finished
without an exception and `search` returned `r`). -/
def searchActionOf
    (res : Option (Except String (Heap × Nodes × ℕ × Option LAction))) :
    Option (Option LAction) :=
  match res with
  | some (Except.ok (_, _, _, r)) => some r
  | _ => none

/-- The root object after a `searchH` run that finished without an
exception. -/
def rootAfter
    (res : Option (Except String (Heap × Nodes × ℕ × Option LAction)))
    (root : ObjId) : Option LudoState :=
  match res with
  | some (Except.ok (h, _, _, _)) => some (readH h root)
  | _ => none

/-- The `cpuct` default of `MCTS.__init__`. -/
noncomputable def defaultCpuct : ℝ := 1.4

/-- `choose_blue_move`: precondition check, then a fresh `MCTS` (empty node
table, default `cpuct`) and one `search`.  The single error channel carries
both the precondition `ValueError` and any exception propagating out of
`search`, as in Python. -/
noncomputable def choose_blue_move (g : ℕ → ℕ) (fuel : ℕ) (heap : Heap)
    (root : ObjId) (nsim : ℕ) :
    Option (Except String (Heap × Nodes × ℕ × Option LAction)) :=
  if (readH heap root).current_player ≠ Player.Blue then
    some (Except.error "choose_blue_move expects Blue to be the current player.")
  else searchH g defaultCpuct fuel heap [] 0 root nsim

/-- The upper-confidence score exactly as the spec states it:
`score(a) = sign * (W(a)/N(a)) + c * sqrt(ln(T+1) / N(a))`, infinite when
`N(a) = 0`, with the sign only on the exploitation term. -/
noncomputable def uctSpecFormula (W : ℤ) (n T : ℕ) (c : ℝ) (player : Player) : EReal :=
  if n = 0 then (⊤ : EReal)
  else (((if player = Player.Blue then (1 : ℝ) else -1) * ((W : ℝ) / (n : ℝ)) +
      c * Real.sqrt (Real.log ((T : ℝ) + 1) / (n : ℝ)) : ℝ) : EReal)

/-- C8: `uct_score` equals the spec formula — infinite iff the action is
unvisited, otherwise `sign * (W/N) + c * sqrt(ln(T+1)/N)` with `sign = +1`
for Blue and `-1` for Red applied only to the exploitation term — and the
default exploration constant is `1.4 = 14/10`. -/
theorem uct_score_matches_spec :
    (∀ (node : MCTSNode) (a : LAction) (c : ℝ) (player : Player),
      uct_score node a c player =
        uctSpecFormula ((lookupD node.W a).getD 0) ((lookupD node.N a).getD 0)
          node.total_visits c player) ∧
    defaultCpuct = 14 / 10 := by
  constructor
  · intro node a c player
    unfold uct_score uctSpecFormula q_value
    by_cases h : (lookupD node.N a).getD 0 = 0
    · rw [if_pos h, if_pos h]
    · rw [if_neg h, if_neg h, if_neg h]
  · norm_num [defaultCpuct]

/-- C3 fails as stated: from the non-terminal root `blue = [43,43,43,38]`,
`red` all home, Blue to move, die 1 has a legal action, yet with budget 1 and
a random stream that makes every die roll 5 the single simulation finds no
legal root action (the move 38 -> 43 is blocked by the occupied finish square
43), passes the turn, expands the fresh Red node with a rollout, records
nothing at the root, and `search` returns no action. -/
theorem search_none_failure :
    ¬(⟨[43, 43, 43, 38], [-1, -1, -1, -1], Player.Blue⟩ : LudoState).is_terminal ∧
      (⟨[43, 43, 43, 38], [-1, -1, -1, -1],
          Player.Blue⟩ : LudoState).get_legal_actions 1 ≠ [] ∧
      searchActionOf (searchH (fun _ => 4) defaultCpuct 5
          [⟨[43, 43, 43, 38], [-1, -1, -1, -1], Player.Blue⟩] [] 0 0 1) =
        some none := by
  refine ⟨by decide, by decide, ?_⟩
  set_option maxRecDepth 100000 in decide

theorem lookupD_insertD {κ α : Type} [DecidableEq κ] (l : List (κ × α)) (k : κ)
    (v : α) (k2 : κ) :
    lookupD (insertD l k v) k2 = if k = k2 then some v else lookupD l k2 := by
  induction l with
  | nil => simp [insertD, lookupD]
  | cons hd rest ih =>
    obtain ⟨a, w⟩ := hd
    rw [insertD]
    by_cases hak : a = k
    · subst hak
      rw [if_pos rfl, lookupD, lookupD]
      by_cases hk2 : a = k2 <;> simp [hk2]
    · rw [if_neg hak, lookupD, lookupD]
      by_cases hk2 : a = k2
      · subst hk2
        rw [if_pos rfl, if_pos rfl, if_neg (by tauto)]
      · rw [if_neg hk2, if_neg hk2, ih]

theorem insertD_ne_nil {κ α : Type} [DecidableEq κ] (l : List (κ × α)) (k : κ)
    (v : α) : insertD l k v ≠ [] := by
  cases l with
  | nil => simp [insertD]
  | cons hd rest =>
    rw [insertD]
    split_ifs <;> simp

theorem bpStep_mono (outcome : ℤ) {nodes : Nodes} (e : StateKey × LAction × Player)
    {k : StateKey} {nd : MCTSNode} (h : lookupD nodes k = some nd) :
    ∃ nd2, lookupD (bpStep outcome nodes e) k = some nd2 ∧
      (nd.N ≠ [] → nd2.N ≠ []) := by
  rw [bpStep]
  cases he : lookupD nodes e.1 with
  | none => exact ⟨nd, h, fun hn => hn⟩
  | some nde =>
    rw [lookupD_insertD]
    by_cases hk : e.1 = k
    · refine ⟨_, by rw [if_pos hk], fun _ => insertD_ne_nil _ _ _⟩
    · exact ⟨nd, by rw [if_neg hk]; exact h, fun hn => hn⟩

theorem bpStep_entry (outcome : ℤ) {nodes : Nodes} {e : StateKey × LAction × Player}
    (h : (lookupD nodes e.1).isSome) :
    ∃ nd2, lookupD (bpStep outcome nodes e) e.1 = some nd2 ∧ nd2.N ≠ [] := by
  rw [bpStep]
  cases he : lookupD nodes e.1 with
  | none => rw [he] at h; simp at h
  | some nde =>
    rw [lookupD_insertD, if_pos rfl]
    exact ⟨_, rfl, insertD_ne_nil _ _ _⟩

theorem bpFold_mono {outcome : ℤ} :
    ∀ (path : SPath) (nodes : Nodes) (k : StateKey) (nd : MCTSNode),
      lookupD nodes k = some nd →
      ∃ nd2, lookupD (path.foldl (bpStep outcome) nodes) k = some nd2 ∧
        (nd.N ≠ [] → nd2.N ≠ []) := by
  intro path
  induction path with
  | nil => exact fun nodes k nd h => ⟨nd, h, fun hn => hn⟩
  | cons e rest ih =>
    intro nodes k nd h
    obtain ⟨nd1, h1, h1n⟩ := bpStep_mono outcome e h
    obtain ⟨nd2, h2, h2n⟩ := ih _ _ _ h1
    exact ⟨nd2, h2, fun hn => h2n (h1n hn)⟩

theorem bpFold_entry {outcome : ℤ} :
    ∀ (path : SPath) (nodes : Nodes) (e : StateKey × LAction × Player),
      e ∈ path → (lookupD nodes e.1).isSome →
      ∃ nd2, lookupD (path.foldl (bpStep outcome) nodes) e.1 = some nd2 ∧
        nd2.N ≠ [] := by
  intro path
  induction path with
  | nil => intro nodes e he; simp at he
  | cons e0 rest ih =>
    intro nodes e he hsome
    rcases List.mem_cons.mp he with he0 | hrest
    · subst he0
      obtain ⟨nd1, h1, h1n⟩ := bpStep_entry outcome hsome
      obtain ⟨nd2, h2, h2n⟩ := bpFold_mono rest _ _ _ h1
      exact ⟨nd2, h2, h2n h1n⟩
    · obtain ⟨nd0, h0⟩ := Option.isSome_iff_exists.mp hsome
      obtain ⟨nd1, h1, _⟩ := bpStep_mono outcome e0 h0
      exact ih _ _ hrest (by rw [h1]; rfl)

theorem bpStep_isSome {outcome : ℤ} {nodes : Nodes}
    {e : StateKey × LAction × Player} {k : StateKey}
    (h : (lookupD nodes k).isSome) : (lookupD (bpStep outcome nodes e) k).isSome := by
  obtain ⟨nd, hnd⟩ := Option.isSome_iff_exists.mp h
  obtain ⟨nd2, h2, _⟩ := bpStep_mono outcome e hnd
  rw [h2]; rfl

theorem foldl_choice_mem {α : Type} (f : α → α → α)
    (hf : ∀ a b, f a b = a ∨ f a b = b) :
    ∀ (xs : List α) (x : α), xs.foldl f x ∈ x :: xs := by
  intro xs
  induction xs with
  | nil => intro x; simp
  | cons y ys ih =>
    intro x
    rw [List.foldl_cons]
    rcases hf x y with h | h <;> rw [h]
    · rcases List.mem_cons.mp (ih x) with h2 | h2 <;> simp [h2]
    · rcases List.mem_cons.mp (ih y) with h2 | h2 <;> simp [h2]

theorem pyMaxBy_mem {l : List LAction} (f : LAction → EReal) (hl : l ≠ []) :
    pyMaxBy l f ∈ l := by
  cases l with
  | nil => exact absurd rfl hl
  | cons x xs =>
    rw [pyMaxBy]
    have := foldl_choice_mem (fun best it => if f best < f it then it else best)
      (fun a b => by by_cases h : f a < f b <;> simp [h]) xs x
    exact this

theorem getD_mod_mem {l : List LAction} (n : ℕ) (hl : l ≠ []) :
    l.getD (n % l.length) (0, 0) ∈ l := by
  have hlen : 0 < l.length := List.length_pos.mpr hl
  have hlt : n % l.length < l.length := Nat.mod_lt _ hlen
  rw [List.getD_eq_getElem?_getD, List.getElem?_eq_getElem hlt]
  exact List.getElem_mem _

theorem readH_alloc (heap : Heap) (v : LudoState) :
    readH (heap ++ [v]) heap.length = v := by
  rw [readH, List.getD_eq_getElem?_getD, List.getElem?_concat_length]
  rfl

theorem length_writeH (heap : Heap) (s : ObjId) (v : LudoState) :
    (writeH heap s v).length = heap.length := List.length_set heap s v

theorem getElem?_writeH_ne {heap : Heap} {s j : ObjId} (v : LudoState)
    (h : j ≠ s) : (writeH heap s v)[j]? = heap[j]? :=
  List.getElem?_set_ne (Ne.symm h)

theorem getElem?_append_one {l₁ : Heap} (v : LudoState) {j : ℕ}
    (h : j < l₁.length) : (l₁ ++ [v])[j]? = l₁[j]? := by
  rw [List.getElem?_append]
  exact if_pos h

theorem backpropagate_fst (path : SPath) (w : Option Player) (nodes : Nodes) :
    (backpropagate path w nodes).1 =
      path.foldl (bpStep ((backpropagate path w nodes).2)) nodes := by
  cases w with
  | none => rfl
  | some pl => cases pl <;> rfl

theorem applyV_legal_ok {st : LudoState} {die : ℤ} {a : LAction}
    (ha : a ∈ st.get_legal_actions die) : ∃ st2, applyV st a = Except.ok st2 := by
  obtain ⟨idx, t⟩ := a
  obtain ⟨pos, hget, hrule⟩ := legal_mem ha
  have hok : ¬(pos = HOME ∧ t ≠ 0) := by
    rcases hrule with ⟨h1, h2, h3, h4⟩ | ⟨h1, h2, h3, h4, h5⟩
    · exact fun hc => hc.2 h4
    · exact fun hc => h1 hc.1
  exact ⟨_, applyV_ok_eq hget hok⟩

theorem rollout_ok (g : ℕ → ℕ) :
    ∀ (d : ℕ) (st : LudoState) (i : ℕ),
      ∃ v st2 i2, rollout g d st i = Except.ok (v, st2, i2) := by
  intro d
  induction d with
  | zero => exact fun st i => ⟨0, st, i, rfl⟩
  | succ d ih =>
    intro st i
    simp only [rollout]
    by_cases hterm : st.is_terminal = true
    · rw [if_pos hterm]
      exact ⟨_, _, _, rfl⟩
    · rw [if_neg hterm]
      by_cases hleg : st.get_legal_actions (((g i % 6 : ℕ) : ℤ) + 1) = []
      · rw [if_pos hleg]
        exact ih _ _
      · rw [if_neg hleg]
        obtain ⟨st2, happ⟩ := applyV_legal_ok (getD_mod_mem (g (i + 1)) hleg)
        rw [happ]
        exact ih _ _


/-- Master invariant of one `_simulate` run: a run that terminates within its
fuel never raises (actions are taken from legal-move enumeration), only grows
the heap and mutates only the cells of its own state object and of clones
allocated during the run, preserves every node of the table (never emptying a
nonempty visit map), and leaves every `(node, action)` pair of the incoming
path with a nonempty visit map (backpropagation increments it). -/
theorem simulateH_master (g : ℕ → ℕ) (c : ℝ) :
    ∀ (fuel : ℕ) (heap : Heap) (nodes : Nodes) (i : ℕ) (s : ObjId) (path : SPath)
      (res : Except String (Heap × Nodes × ℕ × ℤ)),
      simulateH g c fuel heap nodes i s path = some res →
      (∀ e ∈ path, (lookupD nodes e.1).isSome) →
      ∃ heap2 nodes2 i2 v, res = Except.ok (heap2, nodes2, i2, v) ∧
        heap.length ≤ heap2.length ∧
        (∀ j, j < heap.length → j ≠ s → heap2[j]? = heap[j]?) ∧
        (∀ k nd, lookupD nodes k = some nd →
          ∃ nd2, lookupD nodes2 k = some nd2 ∧ (nd.N ≠ [] → nd2.N ≠ [])) ∧
        (∀ e ∈ path, ∃ nd2, lookupD nodes2 e.1 = some nd2 ∧ nd2.N ≠ []) := by
  intro fuel
  induction fuel with
  | zero =>
    intro heap nodes i s path res hsim hpres
    simp [simulateH] at hsim
  | succ fuel ih =>
    intro heap nodes i s path res hsim hpres
    simp only [simulateH] at hsim
    set ST := readH heap s with hST
    by_cases hterm : ST.is_terminal = true
    · rw [if_pos hterm] at hsim
      obtain rfl := (Option.some.inj hsim).symm
      refine ⟨heap, _, i, _, rfl, le_refl _, fun j hj hjs => rfl, ?_, ?_⟩
      · intro k nd hk
        rw [backpropagate_fst]
        exact bpFold_mono path nodes k nd hk
      · intro e he
        rw [backpropagate_fst]
        exact bpFold_entry path nodes e he (hpres e he)
    · rw [if_neg hterm] at hsim
      cases hlk : lookupD nodes ST.key with
      | none =>
        simp only [hlk] at hsim
        obtain ⟨v0, st2, i2, hroll⟩ := rollout_ok g 200 ST i
        simp only [hroll] at hsim
        obtain rfl := (Option.some.inj hsim).symm
        have hins : ∀ k nd, lookupD nodes k = some nd →
            lookupD (insertD nodes ST.key (MCTSNode.new ST.key)) k = some nd := by
          intro k nd hk
          rw [lookupD_insertD]
          rw [if_neg ?hne]
          · exact hk
          case hne =>
            intro hkeq
            rw [hkeq, hk] at hlk
            cases hlk
        refine ⟨_, _, _, _, rfl, le_of_eq (length_writeH heap s st2).symm,
          fun j hj hjs => getElem?_writeH_ne st2 hjs, ?_, ?_⟩
        · intro k nd hk
          rw [backpropagate_fst]
          exact bpFold_mono path _ k nd (hins k nd hk)
        · intro e he
          rw [backpropagate_fst]
          refine bpFold_entry path _ e he ?_
          obtain ⟨nd, hnd⟩ := Option.isSome_iff_exists.mp (hpres e he)
          rw [hins e.1 nd hnd]
          rfl
      | some node =>
        simp only [hlk] at hsim
        set L := ST.get_legal_actions (((g i % 6 : ℕ) : ℤ) + 1) with hL
        by_cases hleg : L = []
        · rw [if_pos hleg] at hsim
          obtain ⟨heap2, nodes2, i2, v, hres, hlen, hframe, hmono, hentry⟩ :=
            ih _ _ _ _ _ _ hsim hpres
          refine ⟨heap2, nodes2, i2, v, hres, ?_, ?_, hmono, hentry⟩
          · calc heap.length = (writeH heap s _).length := (length_writeH _ _ _).symm
              _ ≤ heap2.length := hlen
          · intro j hj hjs
            rw [hframe j (by rw [length_writeH]; exact hj) hjs]
            exact getElem?_writeH_ne _ hjs
        · rw [if_neg hleg] at hsim
          set U := L.filter (fun a => (lookupD node.children a).isNone) with hU
          by_cases hunt : U = []
          · rw [if_pos hunt] at hsim
            set A1 := pyMaxBy L (fun act => uct_score node act c ST.current_player)
              with hA1
            have hmemA1 : A1 ∈ ST.get_legal_actions (((g i % 6 : ℕ) : ℤ) + 1) := by
              rw [hA1, hL]
              exact pyMaxBy_mem _ (hL ▸ hleg)
            obtain ⟨st2, happ⟩ := applyV_legal_ok hmemA1
            have happA : applyA heap s A1 = (none, writeH heap s st2) := by
              rw [applyA, ← hST, happ]
            simp only [happA] at hsim
            have hpres2 : ∀ e ∈ path ++ [(ST.key, A1, ST.current_player)],
                (lookupD nodes e.1).isSome := by
              intro e he
              rcases List.mem_append.mp he with he1 | he2
              · exact hpres e he1
              · rw [List.mem_singleton.mp he2, hlk]
                rfl
            obtain ⟨heap2, nodes2, i2, v, hres, hlen, hframe, hmono, hentry⟩ :=
              ih _ _ _ _ _ _ hsim hpres2
            refine ⟨heap2, nodes2, i2, v, hres, ?_, ?_, hmono, ?_⟩
            · calc heap.length = (writeH heap s st2).length := (length_writeH _ _ _).symm
                _ ≤ heap2.length := hlen
            · intro j hj hjs
              rw [hframe j (by rw [length_writeH]; exact hj) hjs]
              exact getElem?_writeH_ne _ hjs
            · exact fun e he => hentry e (List.mem_append_left _ he)
          · rw [if_neg hunt] at hsim
            set A2 := U.getD (g (i + 1) % U.length) (0, 0) with hA2
            have hmemA2 : A2 ∈ ST.get_legal_actions (((g i % 6 : ℕ) : ℤ) + 1) := by
              rw [← hL]
              exact (List.mem_filter.mp ((hU ▸ hA2 ▸ getD_mod_mem (g (i + 1)) hunt))).1
            obtain ⟨st2, happ⟩ := applyV_legal_ok hmemA2
            have hclread : readH (allocH heap ST).1 (allocH heap ST).2 = ST :=
              readH_alloc heap ST
            have happA : applyA (allocH heap ST).1 (allocH heap ST).2 A2 =
                (none, writeH (allocH heap ST).1 (allocH heap ST).2 st2) := by
              rw [applyA, hclread, happ]
            simp only [happA] at hsim
            obtain ⟨v0, st3, i3, hroll⟩ := rollout_ok g 200
              (readH (writeH (allocH heap ST).1 (allocH heap ST).2 st2)
                (allocH heap ST).2) (i + 2)
            simp only [hroll] at hsim
            obtain rfl := (Option.some.inj hsim).symm
            have hins : ∀ k nd, lookupD nodes k = some nd →
                ∃ nd1, lookupD (insertD nodes ST.key
                  { node with children := (insertD node.children A2 (readH (writeH (allocH heap ST).1 (allocH heap ST).2 st2) (allocH heap ST).2).key) }) k = some nd1 ∧
                  nd1.N = nd.N := by
              intro k nd hk
              rw [lookupD_insertD]
              by_cases hkeq : ST.key = k
              · refine ⟨_, by rw [if_pos hkeq], ?_⟩
                rw [hkeq, hk] at hlk
                cases hlk
                rfl
              · exact ⟨nd, by rw [if_neg hkeq]; exact hk, rfl⟩
            have hs2 : (allocH heap ST).2 = heap.length := rfl
            refine ⟨_, _, _, _, rfl, ?_, ?_, ?_, ?_⟩
            · rw [length_writeH, length_writeH]
              show heap.length ≤ (heap ++ [ST]).length
              rw [List.length_append]
              simp
            · intro j hj hjs
              have hne1 : j ≠ (allocH heap ST).2 := by rw [hs2]; omega
              rw [getElem?_writeH_ne st3 hne1, getElem?_writeH_ne st2 hne1]
              exact getElem?_append_one ST hj
            · intro k nd hk
              rw [backpropagate_fst]
              obtain ⟨nd1, h1, h1n⟩ := hins k nd hk
              obtain ⟨nd2, h2, h2n⟩ := bpFold_mono _ _ _ _ h1
              exact ⟨nd2, h2, fun hn => h2n (by rw [h1n]; exact hn)⟩
            · intro e he
              rw [backpropagate_fst]
              refine bpFold_entry _ _ e (List.mem_append_left _ he) ?_
              obtain ⟨nd, hnd⟩ := Option.isSome_iff_exists.mp (hpres e he)
              obtain ⟨nd1, h1, _⟩ := hins e.1 nd hnd
              rw [h1]
              rfl

/-- The simulation loop of `search` never raises, only grows the heap,
preserves every cell below the initial heap length (each simulation runs on a
freshly allocated clone), and never empties a node's visit map. -/
theorem searchLoop_master (g : ℕ → ℕ) (c : ℝ) (fuel : ℕ) (root : ObjId) :
    ∀ (n : ℕ) (heap : Heap) (nodes : Nodes) (i : ℕ)
      (res : Except String (Heap × Nodes × ℕ)),
      searchLoop g c fuel root n heap nodes i = some res →
      ∃ heap2 nodes2 i2, res = Except.ok (heap2, nodes2, i2) ∧
        heap.length ≤ heap2.length ∧
        (∀ j, j < heap.length → heap2[j]? = heap[j]?) ∧
        (∀ k nd, lookupD nodes k = some nd →
          ∃ nd2, lookupD nodes2 k = some nd2 ∧ (nd.N ≠ [] → nd2.N ≠ [])) := by
  intro n
  induction n with
  | zero =>
    intro heap nodes i res hres
    rw [searchLoop] at hres
    obtain rfl := (Option.some.inj hres).symm
    exact ⟨heap, nodes, i, rfl, le_refl _, fun j hj => rfl,
      fun k nd hk => ⟨nd, hk, fun hn => hn⟩⟩
  | succ n ih =>
    intro heap nodes i res hres
    simp only [searchLoop] at hres
    cases hsim : simulateH g c fuel (allocH heap (readH heap root)).1 nodes i
        (allocH heap (readH heap root)).2 [] with
    | none =>
      simp only [hsim] at hres
      cases hres
    | some res0 =>
      simp only [hsim] at hres
      obtain ⟨h2, n2, i2, v, rfl, hlen, hframe, hmono, _⟩ :=
        simulateH_master g c fuel _ nodes i _ [] res0 hsim (by simp)
      obtain ⟨h3, n3, i3, rfl, hlen2, hframe2, hmono2⟩ := ih h2 n2 i2 res hres
      have halen : (allocH heap (readH heap root)).1.length = heap.length + 1 := by
        show (heap ++ [readH heap root]).length = heap.length + 1
        rw [List.length_append]
        rfl
      refine ⟨h3, n3, i3, rfl, ?_, ?_, ?_⟩
      · calc heap.length ≤ heap.length + 1 := by omega
          _ = (allocH heap (readH heap root)).1.length := halen.symm
          _ ≤ h2.length := hlen
          _ ≤ h3.length := hlen2
      · intro j hj
        have hj2 : j < h2.length := by
          have := hlen
          rw [halen] at this
          omega
        rw [hframe2 j hj2, hframe j (by rw [halen]; omega) (by
          show j ≠ (allocH heap (readH heap root)).2
          show j ≠ heap.length
          omega)]
        exact getElem?_append_one _ hj
      · intro k nd hk
        obtain ⟨nd2, h2k, h2n⟩ := hmono k nd hk
        obtain ⟨nd3, h3k, h3n⟩ := hmono2 k nd2 h2k
        exact ⟨nd3, h3k, fun hn => h3n (h2n hn)⟩

/-- The first simulation from a non-terminal root whose node is in the table
and whose sampled die always has a legal action either expands an action at
the root (recording a visit) or walks through the root with the selection
rule and records the visit at backpropagation: afterwards the root node's
visit map is nonempty. -/
theorem simulateH_first_records (g : ℕ → ℕ) (c : ℝ) (fuel : ℕ) (heap : Heap)
    (nodes : Nodes) (i : ℕ) (s : ObjId) (node : MCTSNode)
    (hterm : ¬(readH heap s).is_terminal = true)
    (hlk : lookupD nodes (readH heap s).key = some node)
    (hleg : ∀ k : ℕ, k < 6 → (readH heap s).get_legal_actions ((k : ℤ) + 1) ≠ [])
    (res : Except String (Heap × Nodes × ℕ × ℤ))
    (hsim : simulateH g c fuel heap nodes i s [] = some res) :
    ∃ heap2 nodes2 i2 v, res = Except.ok (heap2, nodes2, i2, v) ∧
      ∃ nd2, lookupD nodes2 (readH heap s).key = some nd2 ∧ nd2.N ≠ [] := by
  cases fuel with
  | zero => simp [simulateH] at hsim
  | succ fuel =>
    simp only [simulateH] at hsim
    set ST := readH heap s with hST
    rw [if_neg hterm] at hsim
    simp only [hlk] at hsim
    set L := ST.get_legal_actions (((g i % 6 : ℕ) : ℤ) + 1) with hL
    have hlegd : ¬L = [] := hleg (g i % 6) (Nat.mod_lt _ (by norm_num))
    rw [if_neg hlegd] at hsim
    set U := L.filter (fun a => (lookupD node.children a).isNone) with hU
    by_cases hunt : U = []
    · rw [if_pos hunt] at hsim
      set A1 := pyMaxBy L (fun act => uct_score node act c ST.current_player)
        with hA1
      have hmemA1 : A1 ∈ ST.get_legal_actions (((g i % 6 : ℕ) : ℤ) + 1) := by
        rw [hA1, hL]
        exact pyMaxBy_mem _ (hL ▸ hlegd)
      obtain ⟨st2, happ⟩ := applyV_legal_ok hmemA1
      have happA : applyA heap s A1 = (none, writeH heap s st2) := by
        rw [applyA, ← hST, happ]
      simp only [happA] at hsim
      obtain ⟨heap2, nodes2, i2, v, hres, _, _, _, hentry⟩ :=
        simulateH_master g c fuel _ nodes (i + 1) s
          ([] ++ [(ST.key, A1, ST.current_player)]) res hsim (by
            intro e he
            rcases List.mem_append.mp he with he1 | he2
            · simp at he1
            · rw [List.mem_singleton.mp he2, hlk]
              rfl)
      obtain ⟨nd2, h2, h2n⟩ := hentry (ST.key, A1, ST.current_player) (by simp)
      exact ⟨heap2, nodes2, i2, v, hres, nd2, h2, h2n⟩
    · rw [if_neg hunt] at hsim
      set A2 := U.getD (g (i + 1) % U.length) (0, 0) with hA2
      have hmemA2 : A2 ∈ ST.get_legal_actions (((g i % 6 : ℕ) : ℤ) + 1) := by
        rw [← hL]
        exact (List.mem_filter.mp ((hU ▸ hA2 ▸ getD_mod_mem (g (i + 1)) hunt))).1
      obtain ⟨st2, happ⟩ := applyV_legal_ok hmemA2
      have hclread : readH (allocH heap ST).1 (allocH heap ST).2 = ST :=
        readH_alloc heap ST
      have happA : applyA (allocH heap ST).1 (allocH heap ST).2 A2 =
          (none, writeH (allocH heap ST).1 (allocH heap ST).2 st2) := by
        rw [applyA, hclread, happ]
      simp only [happA] at hsim
      obtain ⟨v0, st3, i3, hroll⟩ := rollout_ok g 200
        (readH (writeH (allocH heap ST).1 (allocH heap ST).2 st2)
          (allocH heap ST).2) (i + 2)
      simp only [hroll] at hsim
      obtain rfl := (Option.some.inj hsim).symm
      refine ⟨_, _, _, _, rfl, ?_⟩
      rw [backpropagate_fst]
      refine bpFold_entry _ _ (ST.key, A2, ST.current_player) (by simp) ?_
      rw [lookupD_insertD, if_pos rfl]
      rfl

/-- `searchH` either fails to finish within its fuel or finishes without an
exception, leaving every heap cell below the initial heap length unchanged. -/
theorem searchH_no_error_frame (g : ℕ → ℕ) (c : ℝ) (fuel : ℕ) (heap : Heap)
    (nodes : Nodes) (i : ℕ) (root : ObjId) (nsim : ℕ) :
    searchH g c fuel heap nodes i root nsim = none ∨
      ∃ h2 n2 i2 r, searchH g c fuel heap nodes i root nsim =
          some (Except.ok (h2, n2, i2, r)) ∧
        ∀ j, j < heap.length → h2[j]? = heap[j]? := by
  simp only [searchH]
  cases hloop : searchLoop g c fuel root nsim heap
      (if (lookupD nodes (readH heap root).key).isNone = true
        then insertD nodes (readH heap root).key (MCTSNode.new (readH heap root).key)
        else nodes) i with
  | none =>
    left
    simp only [hloop]
  | some res =>
    obtain ⟨h2, n2, i2, rfl, _, hframe, _⟩ :=
      searchLoop_master g c fuel root nsim heap _ i res hloop
    right
    simp only [hloop]
    cases hlk2 : lookupD n2 (readH heap root).key with
    | none => exact ⟨h2, n2, i2, none, by simp only [hlk2], hframe⟩
    | some nd =>
      by_cases hN : nd.N = []
      · exact ⟨h2, n2, i2, none, by simp only [hlk2]; rw [if_pos hN], hframe⟩
      · exact ⟨h2, n2, i2, some (pyMaxCount nd.N),
          by simp only [hlk2]; rw [if_neg hN], hframe⟩

/-- C3 amended: on a non-terminal root state for which every die value `1..6`
has at least one legal action, a `search` with budget `>= 1` that finishes
within its fuel never returns the no-action result: the first simulation
records a visit for some root action and later simulations never erase it. -/
theorem search_returns_action (g : ℕ → ℕ) (c : ℝ) (fuel : ℕ) (heap : Heap)
    (nodes : Nodes) (i : ℕ) (root : ObjId) (nsim : ℕ)
    (hterm : ¬(readH heap root).is_terminal = true)
    (hleg : ∀ k : ℕ, k < 6 →
      (readH heap root).get_legal_actions ((k : ℤ) + 1) ≠ [])
    (hnsim : 1 ≤ nsim) :
    searchActionOf (searchH g c fuel heap nodes i root nsim) ≠ some none := by
  obtain ⟨n, rfl⟩ : ∃ n, nsim = n + 1 := ⟨nsim - 1, by omega⟩
  simp only [searchH, searchLoop]
  have hpresent : ∃ nd, lookupD
      (if (lookupD nodes (readH heap root).key).isNone = true
        then insertD nodes (readH heap root).key (MCTSNode.new (readH heap root).key)
        else nodes) (readH heap root).key = some nd := by
    cases hx : lookupD nodes (readH heap root).key with
    | none =>
      simp only [hx, Option.isNone_none, if_true]
      rw [lookupD_insertD, if_pos rfl]
      exact ⟨_, rfl⟩
    | some nd =>
      simp only [hx, Option.isNone_some]
      exact ⟨nd, by simp [hx]⟩
  obtain ⟨nd0, hnd0⟩ := hpresent
  have hclread : readH (allocH heap (readH heap root)).1
      (allocH heap (readH heap root)).2 = readH heap root := readH_alloc _ _
  cases hsim : simulateH g c fuel (allocH heap (readH heap root)).1
      (if (lookupD nodes (readH heap root).key).isNone = true
        then insertD nodes (readH heap root).key (MCTSNode.new (readH heap root).key)
        else nodes) i (allocH heap (readH heap root)).2 [] with
  | none => simp [hsim, searchActionOf]
  | some res0 =>
    obtain ⟨h2, n2, i2, v, rfl, hN2⟩ := simulateH_first_records g c fuel _ _ i _ nd0
      (by rw [hclread]; exact hterm)
      (by rw [hclread]; exact hnd0)
      (by rw [hclread]; exact hleg)
      res0 hsim
    obtain ⟨nd2, hnd2, hnd2N⟩ := hN2
    rw [hclread] at hnd2
    simp only [hsim]
    cases hloop : searchLoop g c fuel root n h2 n2 i2 with
    | none => simp [hloop, searchActionOf]
    | some res1 =>
      obtain ⟨h3, n3, i3, rfl, _, _, hmono⟩ :=
        searchLoop_master g c fuel root n h2 n2 i2 res1 hloop
      obtain ⟨nd3, hnd3, hnd3N⟩ := hmono (readH heap root).key nd2 hnd2
      simp only [hloop, hnd3]
      rw [if_neg (hnd3N hnd2N)]
      simp [searchActionOf]

theorem search_returns_action_witness :
    ¬(readH [⟨[0, -1, -1, -1], [-1, -1, -1, -1], Player.Blue⟩] 0).is_terminal = true ∧
      (∀ k : ℕ, k < 6 →
        (readH [⟨[0, -1, -1, -1], [-1, -1, -1, -1], Player.Blue⟩] 0).get_legal_actions
          ((k : ℤ) + 1) ≠ []) ∧
      (1 : ℕ) ≤ 1 ∧
      searchActionOf (searchH (fun _ => 0) defaultCpuct 3
        [⟨[0, -1, -1, -1], [-1, -1, -1, -1], Player.Blue⟩] [] 0 0 1) ≠ some none :=
  ⟨by decide, by decide, by decide,
    search_returns_action (fun _ => 0) defaultCpuct 3
      [⟨[0, -1, -1, -1], [-1, -1, -1, -1], Player.Blue⟩] [] 0 0 1
      (by decide) (by decide) (by decide)⟩

/-- C10: `search` never mutates the caller's root state object: every
simulation runs on a freshly allocated clone, so after a completed `search`
the root cell of the heap holds exactly the state it held before. -/
theorem search_does_not_mutate_root (g : ℕ → ℕ) (c : ℝ) (fuel : ℕ) (heap : Heap)
    (nodes : Nodes) (i : ℕ) (root : ObjId) (nsim : ℕ)
    (hroot : root < heap.length) :
    rootAfter (searchH g c fuel heap nodes i root nsim) root = none ∨
      rootAfter (searchH g c fuel heap nodes i root nsim) root =
        some (readH heap root) := by
  rcases searchH_no_error_frame g c fuel heap nodes i root nsim with
    h | ⟨h2, n2, i2, r, heq, hframe⟩
  · left
    rw [h]
    rfl
  · right
    rw [heq]
    show some (readH h2 root) = some (readH heap root)
    rw [readH, readH, List.getD_eq_getElem?_getD, List.getD_eq_getElem?_getD,
      hframe root hroot]

theorem search_does_not_mutate_root_witness :
    (0 : ℕ) < ([⟨[0, -1, -1, -1], [-1, -1, -1, -1], Player.Blue⟩] : Heap).length ∧
      (rootAfter (searchH (fun _ => 0) defaultCpuct 3
          [⟨[0, -1, -1, -1], [-1, -1, -1, -1], Player.Blue⟩] [] 0 0 1) 0 = none ∨
        rootAfter (searchH (fun _ => 0) defaultCpuct 3
          [⟨[0, -1, -1, -1], [-1, -1, -1, -1], Player.Blue⟩] [] 0 0 1) 0 =
          some (readH [⟨[0, -1, -1, -1], [-1, -1, -1, -1], Player.Blue⟩] 0)) :=
  ⟨by decide,
    search_does_not_mutate_root (fun _ => 0) defaultCpuct 3
      [⟨[0, -1, -1, -1], [-1, -1, -1, -1], Player.Blue⟩] [] 0 0 1 (by decide)⟩

/-- C5: exactly the two documented operations fail, each exactly under its
documented condition: `choose_blue_move` errors iff the root state's turn is
not Blue (in particular a completed `search` below it never raises), and
`apply_action` errors iff the acting token is at home and the target is not
relative position 0; rollout (like legal-move enumeration, `is_terminal` and
`winner`, which are total functions of this embedding) never fails. -/
theorem fallible_operations_characterization :
    (∀ (g : ℕ → ℕ) (fuel : ℕ) (heap : Heap) (root : ObjId) (nsim : ℕ),
      (∃ e, choose_blue_move g fuel heap root nsim = some (Except.error e)) ↔
        (readH heap root).current_player ≠ Player.Blue) ∧
    (∀ (heap : Heap) (s : ObjId) (idx : ℕ) (t pos : ℤ),
      (readH heap s).currentTokens[idx]? = some pos →
      (((applyA heap s (idx, t)).1 ≠ none) ↔ (pos = HOME ∧ t ≠ 0))) ∧
    (∀ (g : ℕ → ℕ) (d : ℕ) (st : LudoState) (i : ℕ),
      ∃ v st2 i2, rollout g d st i = Except.ok (v, st2, i2)) := by
  refine ⟨?_, ?_, fun g => rollout_ok g⟩
  · intro g fuel heap root nsim
    constructor
    · rintro ⟨e, he⟩
      by_contra hb
      rw [choose_blue_move, if_neg (not_not_intro hb)] at he
      rcases searchH_no_error_frame g defaultCpuct fuel heap [] 0 root nsim with
        h | ⟨h2, n2, i2, r, heq, _⟩
      · rw [h] at he
        cases he
      · rw [heq] at he
        cases Option.some.inj he
    · intro hne
      exact ⟨_, by rw [choose_blue_move, if_pos hne]⟩
  · intro heap s idx t pos hpos
    constructor
    · intro herr
      by_contra hc
      have happ := applyV_ok_eq hpos hc
      simp only [applyA, happ] at herr
      exact herr rfl
    · rintro ⟨hhome, ht⟩
      subst hhome
      have herr : applyA heap s (idx, t) =
          (some "Illegal action: token in home must enter at position 0.", heap) := by
        unfold applyA applyV
        simp only [hpos]
        split_ifs <;>
          first
            | rfl
            | exact absurd (And.intro trivial ht) (by assumption)
      rw [herr]
      simp

theorem fallible_operations_characterization_witness :
    ((readH [⟨[0, -1, -1, -1], [-1, -1, -1, -1], Player.Blue⟩] 0).currentTokens[1]? =
        some (-1)) ∧
      (((applyA [⟨[0, -1, -1, -1], [-1, -1, -1, -1], Player.Blue⟩] 0 (1, 5)).1 ≠ none) ↔
        ((-1 : ℤ) = HOME ∧ (5 : ℤ) ≠ 0)) :=
  ⟨by decide,
    fallible_operations_characterization.2.1
      [⟨[0, -1, -1, -1], [-1, -1, -1, -1], Player.Blue⟩] 0 1 5 (-1) (by decide)⟩
